import Mathlib

/-!
Verification development for the EDWoo repository.

Part 1 models the conversation orchestration core described by the design
document (session state machine, pipeline, interrupt handling, stream
assembly, conversation history).  Part 2 embeds concrete functions of the
WorkOrderWizard code base (authentication middleware, Twilio SMS wrapper and
the notifications route, and the client-side useWebSocket hook).
-/

namespace EDWoo

namespace Voice

/-- Modelled from the spec: terminal failure causes of a pipeline stage
(§7 error taxonomy).  The orchestration core itself is not present in the
repository sources; this whole namespace is modelled from the design
document. -/
inductive FailCause
  | TranscriptionFailed
  | GenerationFailed
  | SynthesisFailed
deriving DecidableEq, Repr

/-- Modelled from the spec: completion status of a Turn (§3), with
`InProgress` standing for a turn that has not yet reached a terminal
outcome. -/
inductive TStatus
  | InProgress
  | Completed
  | Interrupted
  | Failed (cause : FailCause)
deriving DecidableEq, Repr

/-- A status is terminal when it is Completed, Interrupted or Failed. -/
def TStatus.isTerminal : TStatus → Bool
  | .InProgress => false
  | _ => true

/-- True exactly on `Failed` statuses. -/
def TStatus.isFailed : TStatus → Bool
  | .Failed _ => true
  | _ => false

/-- Modelled from the spec: one request/response exchange (§3). -/
structure Turn where
  ordinal : Nat
  transcript : String
  response : String
  status : TStatus
deriving DecidableEq, Repr

/-- Modelled from the spec: session states (§4.1).  The `Interrupted`
pseudo-state always resolves immediately to `Idle`/`Listening`, so the
model performs that resolution atomically inside each operation. -/
inductive SessionState
  | Idle
  | Listening
  | Transcribing
  | Generating
  | Synthesizing
  | Speaking
  | Closed
deriving DecidableEq, Repr

/-- States in which a turn is in flight. -/
def SessionState.inTurn : SessionState → Bool
  | .Transcribing => true
  | .Generating => true
  | .Synthesizing => true
  | .Speaking => true
  | _ => false

/-- Modelled from the spec: a Session (§3).  `turns` is the full per-session
turn log and `history` the budget-trimmed conversation history; both lists
are kept newest-first, so the chronological view required by §4.5 is their
reversal. -/
structure Session where
  state : SessionState
  continuousMode : Bool
  historyBudget : Nat
  turns : List Turn
  history : List Turn
deriving DecidableEq, Repr

/-- Modelled from the spec: input to `SubmitInput` is audio bytes or text
(§3 PipelineRequest payload). -/
inductive InputPayload
  | audio (bytes : List Nat)
  | text (s : String)
deriving DecidableEq, Repr

/-- Modelled from the spec: caller-visible errors of the session API (§7). -/
inductive ApiError
  | InvalidState
  | ProfileNotFound
deriving DecidableEq, Repr

/-- Modelled from the spec: the stable state a session returns to after a
turn ends (§4.1): `Listening` in continuous mode, else `Idle`. -/
def afterTurnState (continuous : Bool) : SessionState :=
  if continuous then .Listening else .Idle

/-- Modelled from the spec: appending a terminal turn to the conversation
history and trimming to the budget, oldest entries dropped first (§4.5).
Lists are newest-first, so `take budget` drops exactly the oldest
entries. -/
def appendHistory (budget : Nat) (history : List Turn) (t : Turn) : List Turn :=
  (t :: history).take budget

/-- Finish the active turn (the newest entry of the turn log) by applying
`upd` to it, and append the finished turn to the conversation history. -/
def finishActive (s : Session) (upd : Turn → Turn) : Session :=
  match s.turns with
  | [] => s
  | t :: rest =>
    { s with
        turns := upd t :: rest,
        history := appendHistory s.historyBudget s.history (upd t) }

/-- Modelled from the spec: the state entered on accepting input —
`Transcribing` for audio, directly `Generating` for text (§4.1). -/
def startState : InputPayload → SessionState
  | .audio _ => .Transcribing
  | .text _ => .Generating

/-- The fresh in-progress turn created at turn start (§3, §4.2). -/
def newTurn (n : Nat) : InputPayload → Turn
  | .audio _ => { ordinal := n, transcript := "", response := "", status := .InProgress }
  | .text str => { ordinal := n, transcript := str, response := "", status := .InProgress }

/-- Push a fresh in-progress turn and enter the first pipeline state. -/
def beginTurn (s : Session) (p : InputPayload) : Session :=
  { s with
      state := startState p,
      turns := newTurn s.turns.length p :: s.turns }

/-- Modelled from the spec: `SubmitInput` (§4.1).  Valid from `Idle` or
`Listening`; while a turn is in flight it fails with `InvalidState` when
continuous mode is off, and otherwise performs the interrupt-and-replace
behaviour of §8/§9 (the in-flight turn is recorded `Interrupted` and a new
turn starts immediately). -/
def submitInput (s : Session) (p : InputPayload) : Except ApiError Session :=
  match s.state with
  | .Idle => .ok (beginTurn s p)
  | .Listening => .ok (beginTurn s p)
  | .Closed => .error .InvalidState
  | _ =>
    if s.continuousMode then
      let s1 := finishActive s (fun t => { t with status := .Interrupted })
      .ok (beginTurn { s1 with state := afterTurnState true } p)
    else
      .error .InvalidState

/-- Modelled from the spec: `Interrupt` (§4.1, §4.3).  A no-op on an idle or
closed session; from an in-turn state it records the in-flight turn as
`Interrupted` and resolves to `Idle`/`Listening`; from `Listening` there is
no armed token, so cancelling is a safe no-op apart from resolving the
state. -/
def interruptOp (s : Session) : Session :=
  match s.state with
  | .Idle => s
  | .Closed => s
  | .Listening => { s with state := afterTurnState s.continuousMode }
  | _ =>
    let s1 := finishActive s (fun t => { t with status := .Interrupted })
    { s1 with state := afterTurnState s.continuousMode }

/-- Modelled from the spec: pipeline stage progression driven by the
Pipeline Coordinator (§4.2): Transcribing → Generating → Synthesizing →
Speaking. -/
def advanceStage (s : Session) : Session :=
  match s.state with
  | .Transcribing => { s with state := .Generating }
  | .Generating => { s with state := .Synthesizing }
  | .Synthesizing => { s with state := .Speaking }
  | _ => s

/-- Modelled from the spec: successful completion of a turn after the final
synthesized chunk (§4.2 step 4); the turn is recorded `Completed` and the
session returns to `Idle`/`Listening`. -/
def completeTurn (s : Session) (response : String) : Session :=
  if s.state = .Speaking then
    let s1 := finishActive s (fun t => { t with response := response, status := .Completed })
    { s1 with state := afterTurnState s.continuousMode }
  else s

/-- Modelled from the spec: a stage-level terminal failure (§4.2 failure
semantics).  The turn is recorded as a zero-content Turn with status
`Failed cause` and the session returns to `Idle`/`Listening`. -/
def failTurn (s : Session) (cause : FailCause) : Session :=
  if s.state.inTurn then
    let s1 := finishActive s
      (fun t => { t with transcript := "", response := "", status := .Failed cause })
    { s1 with state := afterTurnState s.continuousMode }
  else s

/-- Modelled from the spec: `CloseSession` (§4.1) cancels any in-flight turn
and transitions to the terminal `Closed` state. -/
def closeSession (s : Session) : Session :=
  if s.state.inTurn then
    let s1 := finishActive s (fun t => { t with status := .Interrupted })
    { s1 with state := .Closed }
  else { s with state := .Closed }

/-- Modelled from the spec: prompt-context construction for the generation
stage (§4.2): failed turns contribute nothing to the prompt context of
subsequent turns. -/
def promptContext (history : List Turn) : List Turn :=
  history.filter fun t => !t.status.isFailed

/-- Events driving one session: the external commands plus the pipeline
notifications that finish stages. -/
inductive Event
  | submit (p : InputPayload)
  | interrupt
  | advance
  | complete (response : String)
  | fail (cause : FailCause)
  | close
deriving DecidableEq, Repr

/-- One step of the session state machine.  A rejected `SubmitInput` is a
synchronous caller error and leaves the session untouched (§7). -/
def step (s : Session) : Event → Session
  | .submit p =>
    match submitInput s p with
    | .ok s1 => s1
    | .error _ => s
  | .interrupt => interruptOp s
  | .advance => advanceStage s
  | .complete r => completeTurn s r
  | .fail c => failTurn s c
  | .close => closeSession s

/-- Modelled from the spec: `StartSession` yields a fresh session in `Idle`
(§4.1). -/
def initSession (continuous : Bool) (budget : Nat) : Session :=
  { state := .Idle, continuousMode := continuous, historyBudget := budget,
    turns := [], history := [] }

/-- Run a sequence of events against a session. -/
def run (s : Session) (evs : List Event) : Session :=
  evs.foldl step s

/-- Number of turns of a log that are still in progress (non-terminal). -/
def nonTerminalCount (ts : List Turn) : Nat :=
  (ts.filter fun t => t.status == TStatus.InProgress).length

/-- Every turn of the list has reached a terminal status. -/
def allTerminal (ts : List Turn) : Prop :=
  ∀ t ∈ ts, t.status.isTerminal = true

/-- The active-turn part of the session invariant: in an in-turn state the
newest log entry is the unique in-progress turn; otherwise every turn is
terminal. -/
def activeOk (s : Session) : Prop :=
  if s.state.inTurn then
    s.turns.head?.map (fun t => t.status) = some TStatus.InProgress ∧
      allTerminal s.turns.tail
  else
    allTerminal s.turns

/-- Session invariant: at most one in-progress turn, located at the head of
the log exactly when a turn is in flight; the conversation history holds
only terminal turns and never exceeds the budget. -/
def SessionInv (s : Session) : Prop :=
  activeOk s ∧ allTerminal s.history ∧ s.history.length ≤ s.historyBudget

theorem filter_inProgress_eq_nil {ts : List Turn} (h : allTerminal ts) :
    ts.filter (fun t => t.status == TStatus.InProgress) = [] := by
  rw [List.filter_eq_nil_iff]
  intro t ht
  have := h t ht
  cases hs : t.status <;> simp_all [TStatus.isTerminal]

theorem nonTerminalCount_eq_zero {ts : List Turn} (h : allTerminal ts) :
    nonTerminalCount ts = 0 := by
  unfold nonTerminalCount
  rw [filter_inProgress_eq_nil h]
  rfl

theorem nonTerminalCount_cons_inProgress {t : Turn} {rest : List Turn}
    (ht : t.status = TStatus.InProgress) (hr : allTerminal rest) :
    nonTerminalCount (t :: rest) = 1 := by
  unfold nonTerminalCount
  simp [List.filter_cons, ht, filter_inProgress_eq_nil hr]

theorem allTerminal_nil : allTerminal [] := by
  intro t ht
  cases ht

theorem allTerminal_cons {t : Turn} {rest : List Turn}
    (ht : t.status.isTerminal = true) (hr : allTerminal rest) :
    allTerminal (t :: rest) := by
  intro u hu
  rcases List.mem_cons.mp hu with h1 | h1
  · rw [h1]; exact ht
  · exact hr u h1

theorem allTerminal_tail {ts : List Turn} (h : allTerminal ts) :
    allTerminal ts.tail :=
  fun t ht => h t (List.mem_of_mem_tail ht)

theorem appendHistory_length (b : Nat) (h : List Turn) (t : Turn) :
    (appendHistory b h t).length ≤ b := by
  simp only [appendHistory, List.length_take]
  omega

theorem allTerminal_appendHistory {b : Nat} {h : List Turn} {t : Turn}
    (hh : allTerminal h) (ht : t.status.isTerminal = true) :
    allTerminal (appendHistory b h t) := by
  intro u hu
  have hu2 : u ∈ t :: h := List.mem_of_mem_take hu
  rcases List.mem_cons.mp hu2 with h1 | h1
  · rw [h1]; exact ht
  · exact hh u h1

theorem startState_inTurn (p : InputPayload) : (startState p).inTurn = true := by
  cases p <;> rfl

theorem afterTurnState_inTurn (c : Bool) : (afterTurnState c).inTurn = false := by
  cases c <;> rfl

theorem newTurn_status (n : Nat) (p : InputPayload) :
    (newTurn n p).status = TStatus.InProgress := by
  cases p <;> rfl

theorem beginTurn_inv {s : Session} (p : InputPayload)
    (hterm : allTerminal s.turns) (hh : allTerminal s.history)
    (hl : s.history.length ≤ s.historyBudget) :
    SessionInv (beginTurn s p) := by
  refine ⟨?_, hh, hl⟩
  unfold activeOk beginTurn
  simp [startState_inTurn, newTurn_status]
  exact hterm

theorem submitInput_inv {s : Session} {p : InputPayload} {s1 : Session}
    (hinv : SessionInv s) (h : submitInput s p = Except.ok s1) : SessionInv s1 := by
  obtain ⟨hact, hh, hl⟩ := hinv
  obtain ⟨st, cont, bud, tns, hist⟩ := s
  cases st
  case Idle =>
    simp only [submitInput, Except.ok.injEq] at h
    subst h
    simp only [activeOk, SessionState.inTurn, if_false, Bool.false_eq_true] at hact
    exact beginTurn_inv p hact hh hl
  case Listening =>
    simp only [submitInput, Except.ok.injEq] at h
    subst h
    simp only [activeOk, SessionState.inTurn, if_false, Bool.false_eq_true] at hact
    exact beginTurn_inv p hact hh hl
  case Closed =>
    simp [submitInput] at h
  case Transcribing =>
    simp only [activeOk, SessionState.inTurn, if_true] at hact
    cases tns with
    | nil => simp at hact
    | cons t rest =>
      simp only [Option.map_some, Option.some.injEq, List.tail_cons] at hact
      cases cont with
      | false => simp [submitInput] at h
      | true =>
        simp [submitInput, finishActive] at h
        subst h
        refine beginTurn_inv p ?_ ?_ ?_
        · exact allTerminal_cons rfl hact.2
        · exact allTerminal_appendHistory hh rfl
        · exact appendHistory_length _ _ _
  case Generating =>
    simp only [activeOk, SessionState.inTurn, if_true] at hact
    cases tns with
    | nil => simp at hact
    | cons t rest =>
      simp only [Option.map_some, Option.some.injEq, List.tail_cons] at hact
      cases cont with
      | false => simp [submitInput] at h
      | true =>
        simp [submitInput, finishActive] at h
        subst h
        refine beginTurn_inv p ?_ ?_ ?_
        · exact allTerminal_cons rfl hact.2
        · exact allTerminal_appendHistory hh rfl
        · exact appendHistory_length _ _ _
  case Synthesizing =>
    simp only [activeOk, SessionState.inTurn, if_true] at hact
    cases tns with
    | nil => simp at hact
    | cons t rest =>
      simp only [Option.map_some, Option.some.injEq, List.tail_cons] at hact
      cases cont with
      | false => simp [submitInput] at h
      | true =>
        simp [submitInput, finishActive] at h
        subst h
        refine beginTurn_inv p ?_ ?_ ?_
        · exact allTerminal_cons rfl hact.2
        · exact allTerminal_appendHistory hh rfl
        · exact appendHistory_length _ _ _
  case Speaking =>
    simp only [activeOk, SessionState.inTurn, if_true] at hact
    cases tns with
    | nil => simp at hact
    | cons t rest =>
      simp only [Option.map_some, Option.some.injEq, List.tail_cons] at hact
      cases cont with
      | false => simp [submitInput] at h
      | true =>
        simp [submitInput, finishActive] at h
        subst h
        refine beginTurn_inv p ?_ ?_ ?_
        · exact allTerminal_cons rfl hact.2
        · exact allTerminal_appendHistory hh rfl
        · exact appendHistory_length _ _ _

theorem interruptOp_inv {s : Session} (hinv : SessionInv s) :
    SessionInv (interruptOp s) := by
  obtain ⟨hact, hh, hl⟩ := hinv
  obtain ⟨st, cont, bud, tns, hist⟩ := s
  cases st
  case Idle => exact ⟨hact, hh, hl⟩
  case Closed => exact ⟨hact, hh, hl⟩
  case Listening =>
    refine ⟨?_, hh, hl⟩
    simp only [activeOk, SessionState.inTurn, if_false, Bool.false_eq_true] at hact
    simp only [interruptOp, activeOk, afterTurnState_inTurn, if_false, Bool.false_eq_true]
    exact hact
  all_goals
    simp only [activeOk, SessionState.inTurn, if_true] at hact
    cases tns with
    | nil => simp at hact
    | cons t rest =>
      simp only [Option.map_some, Option.some.injEq, List.tail_cons] at hact
      refine ⟨?_, allTerminal_appendHistory hh rfl, appendHistory_length _ _ _⟩
      simp [interruptOp, finishActive, activeOk, afterTurnState_inTurn]
      exact allTerminal_cons rfl hact.2

theorem advanceStage_inv {s : Session} (hinv : SessionInv s) :
    SessionInv (advanceStage s) := by
  obtain ⟨hact, hh, hl⟩ := hinv
  obtain ⟨st, cont, bud, tns, hist⟩ := s
  cases st <;>
    exact ⟨by simpa [advanceStage, activeOk, SessionState.inTurn] using hact, hh, hl⟩

theorem completeTurn_inv {s : Session} (r : String) (hinv : SessionInv s) :
    SessionInv (completeTurn s r) := by
  obtain ⟨hact, hh, hl⟩ := hinv
  obtain ⟨st, cont, bud, tns, hist⟩ := s
  cases st
  case Speaking =>
    simp only [activeOk, SessionState.inTurn, if_true] at hact
    cases tns with
    | nil => simp at hact
    | cons t rest =>
      simp only [Option.map_some, Option.some.injEq, List.tail_cons] at hact
      refine ⟨?_, allTerminal_appendHistory hh rfl, appendHistory_length _ _ _⟩
      simp [completeTurn, finishActive, activeOk, afterTurnState_inTurn]
      exact allTerminal_cons rfl hact.2
  all_goals
    refine ⟨?_, hh, hl⟩
    simpa [completeTurn, activeOk, SessionState.inTurn] using hact

theorem failTurn_inv {s : Session} (c : FailCause) (hinv : SessionInv s) :
    SessionInv (failTurn s c) := by
  obtain ⟨hact, hh, hl⟩ := hinv
  obtain ⟨st, cont, bud, tns, hist⟩ := s
  cases st
  case Idle =>
    exact ⟨by simpa [failTurn, activeOk, SessionState.inTurn] using hact, hh, hl⟩
  case Listening =>
    exact ⟨by simpa [failTurn, activeOk, SessionState.inTurn] using hact, hh, hl⟩
  case Closed =>
    exact ⟨by simpa [failTurn, activeOk, SessionState.inTurn] using hact, hh, hl⟩
  all_goals
    simp only [activeOk, SessionState.inTurn, if_true] at hact
    cases tns with
    | nil => simp at hact
    | cons t rest =>
      simp only [Option.map_some, Option.some.injEq, List.tail_cons] at hact
      refine ⟨?_, allTerminal_appendHistory hh rfl, appendHistory_length _ _ _⟩
      cases cont <;>
        simp [failTurn, SessionState.inTurn, finishActive, activeOk, afterTurnState] <;>
        exact allTerminal_cons rfl hact.2

theorem closeSession_inv {s : Session} (hinv : SessionInv s) :
    SessionInv (closeSession s) := by
  obtain ⟨hact, hh, hl⟩ := hinv
  obtain ⟨st, cont, bud, tns, hist⟩ := s
  cases st
  case Idle =>
    exact ⟨by simpa [closeSession, activeOk, SessionState.inTurn] using hact, hh, hl⟩
  case Listening =>
    exact ⟨by simpa [closeSession, activeOk, SessionState.inTurn] using hact, hh, hl⟩
  case Closed =>
    exact ⟨by simpa [closeSession, activeOk, SessionState.inTurn] using hact, hh, hl⟩
  all_goals
    simp only [activeOk, SessionState.inTurn, if_true] at hact
    cases tns with
    | nil => simp at hact
    | cons t rest =>
      simp only [Option.map_some, Option.some.injEq, List.tail_cons] at hact
      refine ⟨?_, allTerminal_appendHistory hh rfl, appendHistory_length _ _ _⟩
      simp [closeSession, SessionState.inTurn, finishActive, activeOk]
      exact allTerminal_cons rfl hact.2

theorem step_inv {s : Session} (e : Event) (hinv : SessionInv s) :
    SessionInv (step s e) := by
  cases e with
  | submit p =>
    cases h : submitInput s p with
    | ok s1 => simpa only [step, h] using submitInput_inv hinv h
    | error err => simpa only [step, h] using hinv
  | interrupt => exact interruptOp_inv hinv
  | advance => exact advanceStage_inv hinv
  | complete r => exact completeTurn_inv r hinv
  | fail c => exact failTurn_inv c hinv
  | close => exact closeSession_inv hinv

theorem initSession_inv (continuous : Bool) (budget : Nat) :
    SessionInv (initSession continuous budget) := by
  refine ⟨?_, ?_, ?_⟩ <;>
    simp [initSession, activeOk, SessionState.inTurn, allTerminal]

theorem run_inv {s : Session} (evs : List Event) (hinv : SessionInv s) :
    SessionInv (run s evs) := by
  induction evs generalizing s with
  | nil => exact hinv
  | cons e evs ih => exact ih (step_inv e hinv)

/-- Modelled from the spec: the Stream Assembler (§4.4).  `nextSeq` is the
sequence number of the next chunk due for delivery, `buffer` holds arrived
but not yet deliverable chunks, `delivered` the chunks handed to the
presentation boundary, in delivery order. -/
structure StreamAssembler where
  nextSeq : Nat
  buffer : List (Nat × String)
  delivered : List (Nat × String)
deriving DecidableEq, Repr

/-- Remove the first buffered chunk carrying sequence number `n`, if any. -/
def extractSeq (n : Nat) : List (Nat × String) → Option (String × List (Nat × String))
  | [] => none
  | c :: rest =>
    if c.1 = n then some (c.2, rest)
    else
      match extractSeq n rest with
      | none => none
      | some (payload, rest2) => some (payload, c :: rest2)

/-- Deliver buffered chunks in sequence order while the next due chunk has
arrived; each delivery consumes one buffer entry, so `fuel` bounds the
iteration. -/
def flushFuel : Nat → StreamAssembler → StreamAssembler
  | 0, a => a
  | fuel + 1, a =>
    match extractSeq a.nextSeq a.buffer with
    | none => a
    | some (payload, rest) =>
      flushFuel fuel
        { nextSeq := a.nextSeq + 1, buffer := rest,
          delivered := a.delivered ++ [(a.nextSeq, payload)] }

/-- Modelled from the spec: deliver every chunk that is ready — the
assembler withholds chunk N+1 until chunk N has been delivered (§4.4). -/
def flush (a : StreamAssembler) : StreamAssembler :=
  flushFuel a.buffer.length a

/-- Modelled from the spec: arrival of one chunk from a synthesis call, in
any order; the chunk is buffered and everything deliverable is delivered. -/
def arrive (a : StreamAssembler) (c : Nat × String) : StreamAssembler :=
  flush { a with buffer := c :: a.buffer }

/-- The assembler at turn start: nothing arrived, nothing delivered. -/
def emptyAssembler : StreamAssembler :=
  { nextSeq := 0, buffer := [], delivered := [] }

/-- Feed a whole arrival sequence (one turn's synthesis results, in arrival
order) through the assembler. -/
def runAssembler (arrivals : List (Nat × String)) : StreamAssembler :=
  arrivals.foldl arrive emptyAssembler

/-- A session in `Speaking` with continuous mode off and one in-flight
turn. -/
def speakingOff : Session :=
  { state := SessionState.Speaking, continuousMode := false, historyBudget := 4,
    turns := [⟨0, "hello", "", TStatus.InProgress⟩], history := [] }

/-- A session in `Speaking` with continuous mode on and one in-flight
turn. -/
def speakingOn : Session :=
  { state := SessionState.Speaking, continuousMode := true, historyBudget := 4,
    turns := [⟨0, "hello", "", TStatus.InProgress⟩], history := [] }

/-- An idle session with no recorded turns. -/
def idleSession : Session :=
  { state := SessionState.Idle, continuousMode := false, historyBudget := 4,
    turns := [], history := [] }

/-- The events of one successful text turn in the §8 scenario. -/
def scenarioTurn (i : Nat) : List Event :=
  [Event.submit (InputPayload.text ("user " ++ toString i)), Event.advance, Event.advance,
   Event.complete ("reply " ++ toString i)]

/-- §8 scenario: history budget of 3 turns, 5 successful turns submitted
sequentially. -/
def scenarioFive : Session :=
  run (initSession false 3) (((List.range 5).map (fun i => scenarioTurn (i + 1))).flatten)

theorem sessionInv_nonTerminal {s : Session} (hinv : SessionInv s) :
    nonTerminalCount s.turns ≤ 1 ∧ allTerminal s.turns.tail := by
  obtain ⟨hact, -, -⟩ := hinv
  unfold activeOk at hact
  by_cases hin : s.state.inTurn = true
  · rw [if_pos hin] at hact
    obtain ⟨hhead, htail⟩ := hact
    cases htns : s.turns with
    | nil => rw [htns] at hhead; simp at hhead
    | cons t rest =>
      rw [htns] at hhead htail
      simp at hhead
      simp only [List.tail_cons] at htail ⊢
      refine ⟨?_, htail⟩
      rw [nonTerminalCount_cons_inProgress hhead htail]
  · rw [if_neg hin] at hact
    refine ⟨?_, allTerminal_tail hact⟩
    rw [nonTerminalCount_eq_zero hact]
    omega

theorem step_budget {s : Session} (e : Event) :
    (step s e).historyBudget = s.historyBudget := by
  obtain ⟨st, cont, bud, tns, hist⟩ := s
  cases e <;> cases st <;> cases cont <;> cases tns <;>
    simp [step, submitInput, interruptOp, advanceStage, completeTurn, failTurn,
      closeSession, finishActive, beginTurn, afterTurnState, SessionState.inTurn]

theorem run_budget {s : Session} (evs : List Event) :
    (run s evs).historyBudget = s.historyBudget := by
  induction evs generalizing s with
  | nil => rfl
  | cons e evs ih => exact (ih (s := step s e)).trans (step_budget e)

theorem mem_appendHistory {b : Nat} {h : List Turn} {t u : Turn}
    (hu : u ∈ appendHistory b h t) : u = t ∨ u ∈ h :=
  List.mem_cons.mp (List.mem_of_mem_take hu)

theorem flushFuel_range (fuel : Nat) (a : StreamAssembler)
    (h : a.delivered.map Prod.fst = List.range a.nextSeq) :
    (flushFuel fuel a).delivered.map Prod.fst =
      List.range (flushFuel fuel a).nextSeq := by
  induction fuel generalizing a with
  | zero => exact h
  | succ n ih =>
    unfold flushFuel
    cases hx : extractSeq a.nextSeq a.buffer with
    | none => exact h
    | some pr =>
      obtain ⟨payload, rest⟩ := pr
      exact ih
        { nextSeq := a.nextSeq + 1, buffer := rest,
          delivered := a.delivered ++ [(a.nextSeq, payload)] }
        (by simp [h, List.range_succ])

theorem runAssembler_range (arrivals : List (Nat × String)) :
    (runAssembler arrivals).delivered.map Prod.fst =
      List.range (runAssembler arrivals).nextSeq := by
  suffices h : ∀ a, a.delivered.map Prod.fst = List.range a.nextSeq →
      (arrivals.foldl arrive a).delivered.map Prod.fst =
        List.range (arrivals.foldl arrive a).nextSeq by
    exact h emptyAssembler (by simp [emptyAssembler])
  induction arrivals with
  | nil => exact fun a ha => ha
  | cons c cs ih =>
    intro a ha
    simp only [List.foldl_cons]
    exact ih (arrive a c) (flushFuel_range _ _ ha)

/-- C1: for every session and every event sequence (in particular every
sequence of `SubmitInput` calls), at most one turn of the session is in a
non-terminal status at any time, and every turn other than the newest one
is terminal — so a new turn begins only after the previous turn reached a
terminal outcome. -/
theorem turn_serialization (continuous : Bool) (budget : Nat) (evs : List Event) :
    nonTerminalCount (run (initSession continuous budget) evs).turns ≤ 1 ∧
      allTerminal (run (initSession continuous budget) evs).turns.tail :=
  sessionInv_nonTerminal (run_inv evs (initSession_inv continuous budget))

/-- C2: for every arrival order of the underlying synthesis results, the
chunks the Stream Assembler delivers carry exactly the sequence numbers
0, 1, 2, … in that order, hence strictly increasing: chunk N+1 is never
delivered before chunk N. -/
theorem chunk_delivery_order (arrivals : List (Nat × String)) :
    (runAssembler arrivals).delivered.map Prod.fst =
        List.range (runAssembler arrivals).nextSeq ∧
      List.Pairwise (· < ·) ((runAssembler arrivals).delivered.map Prod.fst) := by
  refine ⟨runAssembler_range arrivals, ?_⟩
  rw [runAssembler_range arrivals]
  exact List.pairwise_lt_range _

/-- C3: after every event sequence the Conversation History respects its
configured budget and holds only terminal turns (so trimming can never
remove the in-progress turn, which is never in the history); trimming
removes exactly the oldest entries (the dropped part of the newest-first
list is its tail end); and in the §8 scenario — budget 3, five completed
turns — the history is exactly the 3 most recent turns. -/
theorem history_budget_bound (continuous : Bool) (budget : Nat) (evs : List Event) :
    ((run (initSession continuous budget) evs).history.length ≤ budget ∧
        allTerminal (run (initSession continuous budget) evs).history) ∧
      (∀ b h t, appendHistory b h t ++ (t :: h).drop b = t :: h) ∧
      (scenarioFive.turns.length = 5 ∧
        scenarioFive.history = scenarioFive.turns.take 3 ∧
        allTerminal scenarioFive.history) := by
  obtain ⟨-, hh, hl⟩ := run_inv evs (initSession_inv continuous budget)
  refine ⟨⟨?_, hh⟩, ?_, ?_, ?_, ?_⟩
  · exact le_of_le_of_eq hl (run_budget evs)
  · intro b h t
    exact List.take_append_drop b (t :: h)
  · decide
  · decide
  · unfold allTerminal
    decide

/-- C4: interrupting a session in `Speaking` moves it to `Idle` (or
`Listening` when continuous mode is on) and records the in-flight turn
with status `Interrupted`, never `Completed`. -/
theorem interrupt_speaking (s : Session) (hinv : SessionInv s)
    (hs : s.state = SessionState.Speaking) :
    (interruptOp s).state =
        (if s.continuousMode then SessionState.Listening else SessionState.Idle) ∧
      (interruptOp s).turns.head?.map (fun t => t.status) = some TStatus.Interrupted ∧
      (interruptOp s).turns.head?.map (fun t => t.status) ≠ some TStatus.Completed := by
  obtain ⟨hact, -, -⟩ := hinv
  obtain ⟨st, cont, bud, tns, hist⟩ := s
  replace hs : st = SessionState.Speaking := hs
  subst hs
  simp only [activeOk, SessionState.inTurn, if_true] at hact
  cases tns with
  | nil => simp at hact
  | cons t rest =>
    refine ⟨?_, ?_, ?_⟩ <;> simp [interruptOp, finishActive, afterTurnState]

/-- C4 witness: the theorem applied to a concrete speaking session. -/
theorem interrupt_speaking_witness :
    (interruptOp speakingOff).state =
        (if speakingOff.continuousMode then SessionState.Listening else SessionState.Idle) ∧
      (interruptOp speakingOff).turns.head?.map (fun t => t.status) =
        some TStatus.Interrupted ∧
      (interruptOp speakingOff).turns.head?.map (fun t => t.status) ≠
        some TStatus.Completed :=
  interrupt_speaking speakingOff (by unfold SessionInv activeOk allTerminal; decide) rfl

/-- C5: a stage-level terminal failure records the turn as a zero-content
Turn with status `Failed cause`, returns the session to `Idle`/`Listening`,
appends nothing partial to the Conversation History (every history entry is
an old one or the zero-content failed record), contributes nothing to the
prompt context of subsequent turns, and a subsequent `SubmitInput`
succeeds. -/
theorem stage_failure_recovery (s : Session) (c : FailCause) (p : InputPayload)
    (hinv : SessionInv s) (hin : s.state.inTurn = true) :
    (failTurn s c).state =
        (if s.continuousMode then SessionState.Listening else SessionState.Idle) ∧
      (failTurn s c).turns.head?.map (fun t => (t.transcript, t.response, t.status)) =
        some ("", "", TStatus.Failed c) ∧
      (∀ t ∈ (failTurn s c).history, t ∈ s.history ∨
        (t.transcript = "" ∧ t.response = "" ∧ t.status = TStatus.Failed c)) ∧
      (∀ t ∈ promptContext (failTurn s c).history, t ∈ s.history) ∧
      (submitInput (failTurn s c) p).isOk = true := by
  obtain ⟨hact, hh, hl⟩ := hinv
  obtain ⟨st, cont, bud, tns, hist⟩ := s
  replace hin : st.inTurn = true := hin
  cases st <;> simp only [SessionState.inTurn] at hin
  case Idle => exact absurd hin (by decide)
  case Listening => exact absurd hin (by decide)
  case Closed => exact absurd hin (by decide)
  all_goals
    simp only [activeOk, SessionState.inTurn, if_true] at hact
    cases tns with
    | nil => simp at hact
    | cons t rest =>
      refine ⟨?_, ?_, ?_, ?_, ?_⟩
      · cases cont <;> simp [failTurn, SessionState.inTurn, finishActive, afterTurnState]
      · simp [failTurn, SessionState.inTurn, finishActive]
      · intro u hu
        simp only [failTurn, SessionState.inTurn, if_true, finishActive] at hu
        rcases mem_appendHistory hu with h1 | h1
        · right
          rw [h1]
          exact ⟨rfl, rfl, rfl⟩
        · left
          exact h1
      · intro u hu
        simp only [promptContext, List.mem_filter, failTurn, SessionState.inTurn,
          if_true, finishActive] at hu
        obtain ⟨humem, hup⟩ := hu
        rcases mem_appendHistory humem with h1 | h1
        · exfalso
          rw [h1] at hup
          simp [TStatus.isFailed] at hup
        · exact h1
      · cases cont <;>
          simp [failTurn, SessionState.inTurn, finishActive, afterTurnState,
            submitInput, Except.isOk, Except.toBool]

/-- C5 witness: after a terminal generation failure of a concrete speaking
session, a subsequent `SubmitInput` succeeds. -/
theorem stage_failure_recovery_witness :
    (submitInput (failTurn speakingOff FailCause.GenerationFailed)
        (InputPayload.text "next")).isOk = true :=
  (stage_failure_recovery speakingOff FailCause.GenerationFailed (InputPayload.text "next")
      (by unfold SessionInv activeOk allTerminal; decide) rfl).2.2.2.2

/-- C6 counterexample: with continuous mode on, `SubmitInput` succeeds on a
session that is in `Speaking` — neither `Idle` nor `Listening` — via
interrupt-and-replace, so "succeeds only when the session is in Idle or
Listening" fails as stated. -/
theorem submit_speaking_continuous_ok :
    (submitInput speakingOn (InputPayload.text "again")).isOk = true ∧
      speakingOn.state ≠ SessionState.Idle ∧
      speakingOn.state ≠ SessionState.Listening := by
  refine ⟨?_, ?_, ?_⟩ <;> decide

/-- C6 (amended): `SubmitInput` succeeds exactly when the session is in
`Idle` or `Listening`, or a turn is in progress with continuous mode on
(interrupt-and-replace); when a turn is in progress and continuous mode is
off it fails with `InvalidState` and leaves the session exactly
unchanged. -/
theorem submit_input_guard (s : Session) (p : InputPayload) :
    ((submitInput s p).isOk = true ↔
        (s.state = SessionState.Idle ∨ s.state = SessionState.Listening ∨
          (s.state.inTurn = true ∧ s.continuousMode = true))) ∧
      (s.state.inTurn = true → s.continuousMode = false →
        submitInput s p = Except.error ApiError.InvalidState ∧
          step s (Event.submit p) = s) := by
  obtain ⟨st, cont, bud, tns, hist⟩ := s
  cases st <;> cases cont <;>
    simp [submitInput, step, SessionState.inTurn, Except.isOk, Except.toBool]

/-- C6 witness: the amended theorem applied to a concrete speaking session
with continuous mode off. -/
theorem submit_input_guard_witness :
    submitInput speakingOff (InputPayload.text "x") = Except.error ApiError.InvalidState ∧
      step speakingOff (Event.submit (InputPayload.text "x")) = speakingOff :=
  (submit_input_guard speakingOff (InputPayload.text "x")).2 rfl rfl

/-- C7: `Interrupt` is idempotent — on an idle session it is a no-op, and
interrupting twice yields the same session (state, turn log and history) as
interrupting once. -/
theorem interrupt_idempotent (s : Session) :
    (s.state = SessionState.Idle → interruptOp s = s) ∧
      interruptOp (interruptOp s) = interruptOp s := by
  obtain ⟨st, cont, bud, tns, hist⟩ := s
  constructor
  · intro h
    replace h : st = SessionState.Idle := h
    subst h
    rfl
  · cases st <;> cases cont <;> cases tns <;>
      simp [interruptOp, finishActive, afterTurnState]

/-- C7 witness: the theorem applied to a concrete idle session. -/
theorem interrupt_idempotent_witness :
    interruptOp idleSession = idleSession ∧
      interruptOp (interruptOp idleSession) = interruptOp idleSession :=
  ⟨(interrupt_idempotent idleSession).1 rfl, (interrupt_idempotent idleSession).2⟩

end Voice

namespace Auth

/-- The authenticated user attached to a request, as in
backend/api/utils/auth.ts (`AuthUser`) and the middleware's `req.user`. -/
structure AuthUser where
  id : String
  email : String
  role : String
  firebase_uid : String
deriving DecidableEq, Repr

/-- The mock user installed by both auth functions when Firebase Admin is
not initialized (auth.ts lines 32-37 and utils/auth.ts lines 222-229). -/
def mockUser : AuthUser :=
  { id := "dev-user-id", email := "dev@example.com", role := "admin",
    firebase_uid := "dev-firebase-uid" }

/-- The FIREBASE_CONFIG environment variable as the initialization code
sees it: absent (JSON.parse of the fallback '\x7b\x7d' yields no
project_id), unparsable (JSON.parse throws, caught), or parsed with an
optional project_id. -/
inductive FirebaseConfigEnv
  | absent
  | unparsable
  | parsed (projectId : Option String)
deriving DecidableEq, Repr

/-- Whether the module-level init block sets `firebaseInitialized := true`:
only when the parsed config carries a project_id (auth.ts lines 6-18). -/
def firebaseInitialized : FirebaseConfigEnv → Bool
  | .parsed (some _) => true
  | _ => false

/-- An incoming HTTP request, reduced to the part the auth code reads. -/
structure Request where
  authorization : Option String
deriving DecidableEq, Repr

/-- A decoded Firebase ID token (`admin.auth().verifyIdToken` result). -/
structure DecodedToken where
  uid : String
  email : Option String
deriving DecidableEq, Repr

/-- The result record returned by `authenticateRequest` (utils/auth.ts
`AuthResult`). -/
structure AuthResult where
  success : Bool
  user : Option AuthUser
  error : Option String
deriving DecidableEq, Repr

/-- `authHeader && authHeader.split(' ')[1]`: the second space-separated
word of the Authorization header, when present. -/
def bearerToken (authHeader : Option String) : Option String :=
  match authHeader with
  | none => none
  | some h => (h.splitOn " ").get? 1

/-- `authenticateRequest` of backend/api/utils/auth.ts (lines 217-279).
`verify` models `admin.auth().verifyIdToken` (none = throws) and
`findUser` the Prisma user lookup by firebase_uid. -/
def authenticateRequest (env : FirebaseConfigEnv)
    (verify : String → Option DecodedToken)
    (findUser : String → Option AuthUser)
    (req : Request) : AuthResult :=
  if firebaseInitialized env = false then
    { success := true, user := some mockUser, error := none }
  else
    match bearerToken req.authorization with
    | none => { success := false, user := none, error := some "Access token required" }
    | some token =>
      match verify token with
      | none => { success := false, user := none, error := some "Invalid token" }
      | some decoded =>
        match findUser decoded.uid with
        | none => { success := false, user := none, error := some "User not found" }
        | some u =>
          { success := true,
            user := some { id := u.id, email := u.email, role := u.role,
                           firebase_uid := u.firebase_uid },
            error := none }

/-- What the express middleware does with a request: call `next()` with
`req.user` set, or answer with an error status. -/
inductive MiddlewareOutcome
  | proceed (user : AuthUser)
  | reject (status : Nat) (msg : String)
deriving DecidableEq, Repr

/-- `authenticateToken` of backend/src/middleware/auth.ts (lines 28-65).
The initialized branch mocks the database fetch with fixed id "user-id"
and role "worker", exactly as the source does. -/
def authenticateToken (env : FirebaseConfigEnv)
    (verify : String → Option DecodedToken)
    (req : Request) : MiddlewareOutcome :=
  if firebaseInitialized env = false then
    .proceed mockUser
  else
    match bearerToken req.authorization with
    | none => .reject 401 "Access token required"
    | some token =>
      match verify token with
      | none => .reject 403 "Invalid token"
      | some decoded =>
        .proceed
          { id := "user-id", email := decoded.email.getD "", role := "worker",
            firebase_uid := decoded.uid }

end Auth

namespace Twilio

/-- The Twilio-related environment variables read by
backend/src/services/twilio.ts. -/
structure TwilioEnv where
  sid : Option String
  authToken : Option String
  phoneNumber : Option String
deriving DecidableEq, Repr

/-- The `{ sid, status }` object sendSMS resolves with. -/
structure SMSResult where
  sid : String
  status : String
deriving DecidableEq, Repr

/-- `getClient` (twilio.ts lines 5-14) returns null — no client — unless
both TWILIO_SID and TWILIO_AUTH_TOKEN are set. -/
def clientConfigured (env : TwilioEnv) : Bool :=
  env.sid.isSome && env.authToken.isSome

/-- `sendSMS` (twilio.ts lines 16-34).  Without a configured client it
resolves with the mock result; otherwise it forwards to the Twilio API
(modelled by `networkSend`; an error is wrapped in "SMS sending failed"
and thrown). -/
def sendSMS (env : TwilioEnv)
    (networkSend : String → String → Except String SMSResult)
    (recipient message : String) : Except String SMSResult :=
  if clientConfigured env = false then
    .ok { sid := "mock-message-id", status := "mock-sent" }
  else
    match networkSend recipient message with
    | .ok r => .ok r
    | .error e => .error ("SMS sending failed: " ++ e)

/-- The request body of POST /api/notifications after Zod validation
(sendNotificationSchema). -/
structure NotificationBody where
  work_order_id : String
  message : String
  phone_number : Option String
deriving DecidableEq, Repr

/-- The JSON response of the notifications route, reduced to the fields the
handler writes. -/
structure RouteResponse where
  status : Nat
  success : Option Bool
  message_sid : Option String
  error : Option String
deriving DecidableEq, Repr

/-- POST /api/notifications (dist/routes/notifications.js lines 20-52).
`body` is none when Zod validation throws; `workOrderExists` models the
Prisma findUnique; the default recipient is the hard-coded number. -/
def notificationsPost (env : TwilioEnv)
    (networkSend : String → String → Except String SMSResult)
    (body : Option NotificationBody)
    (workOrderExists : String → Bool) : RouteResponse :=
  match body with
  | none =>
    { status := 400, success := none, message_sid := none,
      error := some "Invalid input data" }
  | some b =>
    if workOrderExists b.work_order_id = false then
      { status := 404, success := none, message_sid := none,
        error := some "Work order not found" }
    else
      match sendSMS env networkSend (b.phone_number.getD "+13202677242") b.message with
      | .error _ =>
        { status := 500, success := none, message_sid := none,
          error := some "Failed to send notification" }
      | .ok r =>
        { status := 200, success := some true, message_sid := some r.sid,
          error := none }

end Twilio

namespace Hooks

/-- A client-side notification record (frontend useWebSocket hook). -/
structure Notification where
  id : String
  kind : String
  title : String
  message : String
  timestamp : String
deriving DecidableEq, Repr

/-- The options argument of useWebSocket. -/
structure UseWebSocketOptions where
  token : Option String
  autoConnect : Option Bool
deriving DecidableEq, Repr

/-- The observable state the hook returns: `isConnected` and
`notifications`. -/
structure HookState where
  isConnected : Bool
  notifications : List Notification
deriving DecidableEq, Repr

/-- `useWebSocket` (frontend hook): `useState(false)` and `useState([])`
with no setters captured, so the returned state is constant. -/
def useWebSocket (options : UseWebSocketOptions) : HookState :=
  { isConnected := false, notifications := [] }

/-- `joinWorkOrder`: only logs, never touches the hook state. -/
def joinWorkOrder (workOrderId : String) (st : HookState) : HookState :=
  st

/-- `leaveWorkOrder`: only logs, never touches the hook state. -/
def leaveWorkOrder (workOrderId : String) (st : HookState) : HookState :=
  st

/-- `clearNotifications`: only logs, never touches the hook state. -/
def clearNotifications (st : HookState) : HookState :=
  st

/-- `removeNotification`: only logs, never touches the hook state. -/
def removeNotification (id : String) (st : HookState) : HookState :=
  st

end Hooks

namespace Auth

/-- C8: whenever Firebase Admin has not been initialized (FIREBASE_CONFIG
absent or unparsable), `authenticateRequest` and `authenticateToken` accept
every request: any two requests, with any or no Authorization header and any
verifier or user store, are authenticated as the same fixed mock user with
role "admin", so outcome and granted role are independent of the supplied
credentials. -/
theorem mock_auth_ignores_credentials (env : FirebaseConfigEnv)
    (v1 v2 : String → Option DecodedToken)
    (f1 f2 : String → Option AuthUser)
    (r1 r2 : Request)
    (henv : env = FirebaseConfigEnv.absent ∨ env = FirebaseConfigEnv.unparsable) :
    authenticateRequest env v1 f1 r1 = authenticateRequest env v2 f2 r2 ∧
      authenticateRequest env v1 f1 r1 =
        { success := true, user := some mockUser, error := none } ∧
      authenticateToken env v1 r1 = authenticateToken env v2 r2 ∧
      authenticateToken env v1 r1 = MiddlewareOutcome.proceed mockUser ∧
      mockUser.role = "admin" := by
  rcases henv with h | h <;> subst h <;>
    simp [authenticateRequest, authenticateToken, firebaseInitialized, mockUser]

/-- C8 witness: with FIREBASE_CONFIG absent, a request with no header and a
request with a forged bearer token get the identical mock-admin result. -/
theorem mock_auth_ignores_credentials_witness :
    authenticateRequest FirebaseConfigEnv.absent (fun _ => none) (fun _ => none)
        { authorization := none } =
      authenticateRequest FirebaseConfigEnv.absent
        (fun token => some { uid := "uid-" ++ token, email := none })
        (fun _ => none) { authorization := some "Bearer forged" } ∧
    authenticateRequest FirebaseConfigEnv.absent (fun _ => none) (fun _ => none)
        { authorization := none } =
      { success := true, user := some mockUser, error := none } :=
  ⟨(mock_auth_ignores_credentials FirebaseConfigEnv.absent (fun _ => none)
      (fun token => some { uid := "uid-" ++ token, email := none })
      (fun _ => none) (fun _ => none)
      { authorization := none } { authorization := some "Bearer forged" }
      (Or.inl rfl)).1,
   (mock_auth_ignores_credentials FirebaseConfigEnv.absent (fun _ => none)
      (fun token => some { uid := "uid-" ++ token, email := none })
      (fun _ => none) (fun _ => none)
      { authorization := none } { authorization := some "Bearer forged" }
      (Or.inl rfl)).2.1⟩

end Auth

namespace Twilio

/-- C9: if TWILIO_SID or TWILIO_AUTH_TOKEN is unset then for every recipient
and message `sendSMS` does not throw and resolves with sid "mock-message-id"
and status "mock-sent"; consequently POST /api/notifications (valid body,
existing work order) answers 200 with success true and that mock sid even
though no SMS was sent. -/
theorem mock_sms_and_notifications (env : TwilioEnv)
    (networkSend : String → String → Except String SMSResult)
    (recipient message : String) (b : NotificationBody)
    (workOrderExists : String → Bool)
    (henv : env.sid = none ∨ env.authToken = none)
    (hwo : workOrderExists b.work_order_id = true) :
    sendSMS env networkSend recipient message =
        Except.ok { sid := "mock-message-id", status := "mock-sent" } ∧
      notificationsPost env networkSend (some b) workOrderExists =
        { status := 200, success := some true,
          message_sid := some "mock-message-id", error := none } := by
  have hcfg : clientConfigured env = false := by
    rcases henv with h | h <;> simp [clientConfigured, h]
  constructor
  · simp [sendSMS, hcfg]
  · simp [notificationsPost, hwo, sendSMS, hcfg]

/-- A Twilio environment with TWILIO_SID unset. -/
def envNoSid : TwilioEnv :=
  { sid := none, authToken := some "token", phoneNumber := some "+15550100" }

/-- A validated notifications request body. -/
def sampleBody : NotificationBody :=
  { work_order_id := "wo-1", message := "work order done", phone_number := none }

/-- C9 witness: the theorem applied to a concrete unset-SID environment with
a network layer that would fail if it were ever called. -/
theorem mock_sms_and_notifications_witness :
    sendSMS envNoSid (fun _ _ => Except.error "network") "+15550100" "hello" =
        Except.ok { sid := "mock-message-id", status := "mock-sent" } ∧
      notificationsPost envNoSid (fun _ _ => Except.error "network") (some sampleBody)
          (fun _ => true) =
        { status := 200, success := some true,
          message_sid := some "mock-message-id", error := none } :=
  mock_sms_and_notifications envNoSid (fun _ _ => Except.error "network") "+15550100"
    "hello" sampleBody (fun _ => true) (Or.inl rfl) rfl

end Twilio

namespace Hooks

/-- C10: for every options argument, useWebSocket returns isConnected false
and an empty notifications list, and joinWorkOrder, leaveWorkOrder,
clearNotifications and removeNotification never change the hook state. -/
theorem websocket_hook_inert (options : UseWebSocketOptions) (wid : String)
    (st : HookState) :
    useWebSocket options = { isConnected := false, notifications := [] } ∧
      joinWorkOrder wid st = st ∧
      leaveWorkOrder wid st = st ∧
      clearNotifications st = st ∧
      removeNotification wid st = st :=
  ⟨rfl, rfl, rfl, rfl, rfl⟩

end Hooks

end EDWoo
